import Mathlib

/-!
Verification of the Money Pot orchestration client
(`src/app.py` and `src/scripts/expire_pots.py`).

The Python code is shallowly embedded: pure helpers become Lean
functions; the remote ledger (view calls and transaction submission)
becomes an explicit environment of result functions, where `none`
models a raised exception / failed call and `some` a successful one.
Timestamps and pot identifiers are `Nat` (Python ints holding u64
values; no wrap-around arithmetic occurs anywhere in these scripts).
-/

namespace MoneyPot

/-! ### Data model -/

/-- The decoded result of a `get_pot` view call.  In the Python code
this is a dict; `get_pot_details` falls back to `{}` when the response
is not a dict, and `main` reads the fields with
`pot_details.get("expires_at", 0)` and `pot_details.get("is_active", False)`,
so each field is optional with those defaults applied at the use site. -/
structure PotDetails where
  expires_at : Option Nat
  is_active : Option Bool
  deriving DecidableEq, Repr

/-- One entry of a transaction's `events` list as read by
`extract_pot_id_from_events` in `src/app.py`: the `type` string, and
the `data` dict's optional `event_type` hex string and optional `id`
field.  A missing `data` dict is modelled by both fields being `none`
(Python's `event.get("data", {})`). -/
structure AptosEvent where
  type : String
  event_type : Option String
  id : Option Nat
  deriving DecidableEq, Repr

/-- A state-changing submission attempted by the sweep: either one
`expire_multiple_pots` call with its three u64 arguments, or one
individual `expire_pot` call. -/
inductive Submission where
  | batch (a b c : Nat)
  | single (p : Nat)
  deriving DecidableEq, Repr

/-- The sweep's report: `attempted` is `expired_pot_ids`, `succeeded`
is `successful_txs` (pot id paired with tx hash). -/
structure SweepReport where
  attempted : List Nat
  succeeded : List (Nat × String)
  deriving DecidableEq, Repr

/-- The remote ledger as seen by the sweep script: the
`get_active_pots` view result, the per-pot `get_pot` view result
(`none` = the query raises), and the outcomes of the two mutating
entry functions (`none` = submission raises, `some h` = committed with
hash `h`). -/
structure SweepEnv where
  active_pots : List Nat
  get_pot : Nat → Option PotDetails
  batch_tx : Nat → Nat → Nat → Option String
  single_tx : Nat → Option String

/-! ### Event correlator (`src/app.py`) -/

/-- Default `MONEY_POT_ADDRESS` from `src/app.py`. -/
def MODULE_ADDR : String :=
  "0xea89ef9798a210009339ea6105c2008d8e154f8b5ae1807911c86320ea03ff3f"

/-- The event type string the correlator compares against:
`f"{MODULE_ADDR}::money_pot_manager::PotEvent"`. -/
def potEventType : String := MODULE_ADDR ++ "::money_pot_manager::PotEvent"

/-- Value of one hex digit, as accepted by Python's `bytes.fromhex`. -/
def hexDigitVal (c : Char) : Option Nat :=
  if '0' ≤ c ∧ c ≤ '9' then some (c.toNat - '0'.toNat)
  else if 'a' ≤ c ∧ c ≤ 'f' then some (c.toNat - 'a'.toNat + 10)
  else if 'A' ≤ c ∧ c ≤ 'F' then some (c.toNat - 'A'.toNat + 10)
  else none

/-- Python `bytes.fromhex`: pairs of hex digits to byte values; fails on an
odd-length string or a non-hex character. -/
def hexPairsToBytes : List Char → Option (List Nat)
  | [] => some []
  | [_] => none
  | c1 :: c2 :: rest =>
    match hexDigitVal c1, hexDigitVal c2, hexPairsToBytes rest with
    | some h, some l, some bs => some ((16 * h + l) :: bs)
    | _, _, _ => none

/-- Python `bytes.decode()` restricted to the ASCII fragment of UTF-8: byte
values below 128 decode to themselves, anything else fails.  (A
multi-byte UTF-8 sequence could also decode in Python, but its result
is never equal to the ASCII tags `"created"`/`"attempted"` that the
correlator compares against, so folding it into the failure case does
not change any comparison the code makes.) -/
def asciiOfBytes : List Nat → Option (List Char)
  | [] => some []
  | b :: bs =>
    if b < 128 then (asciiOfBytes bs).map (fun cs => Char.ofNat b :: cs)
    else none

/-- The expression `bytes.fromhex(event_type_hex[2:]).decode()` from `src/app.py`:
drop the first two characters (the assumed `0x` prefix), hex-decode,
UTF-8-decode. -/
def decodeEventType (s : String) : Option String :=
  match hexPairsToBytes ((s.drop 2).toList) with
  | none => none
  | some bs => (asciiOfBytes bs).map (fun cs => String.mk cs)

/-- Embedding of `extract_pot_id_from_events` from `src/app.py`: scan the events in
order; on a `PotEvent` with a non-empty `event_type` hex string that
decodes to `"created"`, return `int(data.get("id", 0))`; a decode
error (`except: continue`) moves on to the next event; return `None`
when no event matches. -/
def extract_pot_id_from_events : List AptosEvent → Option Nat
  | [] => none
  | e :: rest =>
    if e.type = potEventType then
      let hx := e.event_type.getD ""
      if hx = "" then extract_pot_id_from_events rest
      else
        match decodeEventType hx with
        | none => extract_pot_id_from_events rest
        | some et =>
          if et = "created" then some (e.id.getD 0)
          else extract_pot_id_from_events rest
    else extract_pot_id_from_events rest

/-- Embedding of `extract_attempt_id_from_events` from `src/app.py`: identical scan
with wanted tag `"attempted"`. -/
def extract_attempt_id_from_events : List AptosEvent → Option Nat
  | [] => none
  | e :: rest =>
    if e.type = potEventType then
      let hx := e.event_type.getD ""
      if hx = "" then extract_attempt_id_from_events rest
      else
        match decodeEventType hx with
        | none => extract_attempt_id_from_events rest
        | some et =>
          if et = "attempted" then some (e.id.getD 0)
          else extract_attempt_id_from_events rest
    else extract_attempt_id_from_events rest

/-- Declarative matching predicate: the event is a `PotEvent` of the
known contract whose non-empty `event_type` hex tag decodes to `kind`.
Used to characterise the scanners as a first-match search. -/
def matchesKind (kind : String) (e : AptosEvent) : Bool :=
  e.type == potEventType &&
    (let hx := e.event_type.getD ""
     !(hx == "") && ((decodeEventType hx).map (fun et => et == kind)).getD false)

/-! ### Expiration sweep (`src/scripts/expire_pots.py`) -/

/-- Expiry classification from `main`:
`if is_active and expires_at > 0 and current_time >= expires_at`,
with the dict-access defaults `expires_at = 0`, `is_active = False`. -/
def isExpired (now : Nat) (d : PotDetails) : Bool :=
  d.is_active.getD false && decide (0 < d.expires_at.getD 0) &&
    decide (d.expires_at.getD 0 ≤ now)

/-- The fate of one id in the detail scan, as a function of the
environment: expired only if its `get_pot` query succeeds and the
details pass `isExpired`. -/
def classify (now : Nat) (gp : Nat → Option PotDetails) (id : Nat) : Bool :=
  match gp id with
  | some d => isExpired now d
  | none => false

/-- Python slicing `l[i:i+k] for i in range(0, len(l), k)`, fuel-indexed so that the
recursion is structural (the fuel starts at `l.length`, which bounds
the number of chunks). -/
def chunksGo (k : Nat) : Nat → List α → List (List α)
  | _, [] => []
  | 0, l => [l]
  | fuel + 1, x :: xs => (x :: xs.take (k - 1)) :: chunksGo k fuel (xs.drop (k - 1))

/-- Consecutive slices of size `k` (final slice possibly shorter):
the chunking used with `k = 50` in the detail scan and `k = 3` in
`expire_pots_batch`. -/
def chunksOf (k : Nat) (l : List α) : List (List α) := chunksGo k l.length l

/-- Models `asyncio.gather` over the `get_pot_details` tasks of one chunk:
the whole chunk's query phase fails if any single query raises. -/
def gatherDetails (gp : Nat → Option PotDetails) : List Nat → Option (List PotDetails)
  | [] => some []
  | p :: ps =>
    match gp p, gatherDetails gp ps with
    | some d, some ds => some (d :: ds)
    | _, _ => none

/-- One iteration of the scan loop in `main`: gather the chunk's
details, then `for pot_id, pot_details in zip(batch, pot_details_list)`
collect the ids whose details pass the expiry test. -/
def scanChunk (now : Nat) (gp : Nat → Option PotDetails) (batch : List Nat) :
    Option (List Nat) :=
  match gatherDetails gp batch with
  | none => none
  | some ds =>
    some (((batch.zip ds).filter (fun pd => isExpired now pd.2)).map Prod.fst)

/-- The scan loop over all chunks, accumulating `expired_pot_ids` in
order; a failing chunk propagates out of `main` before any later chunk
is queried. -/
def scanChunks (now : Nat) (gp : Nat → Option PotDetails) :
    List (List Nat) → Option (List Nat)
  | [] => some []
  | c :: cs =>
    match scanChunk now gp c with
    | none => none
    | some e =>
      match scanChunks now gp cs with
      | none => none
      | some rest => some (e ++ rest)

/-- The whole detail scan of `main`: `batch_size = 50` chunks. -/
def scanExpired (now : Nat) (gp : Nat → Option PotDetails) (ids : List Nat) :
    Option (List Nat) :=
  scanChunks now gp (chunksOf 50 ids)

/-- The loop `while len(batch) < 3: batch.append(0)`.  The loop body runs at
most three times (each pass appends one element and the loop stops at
length 3), so it is unrolled here to keep the definition structural. -/
def padTo3 (b : List Nat) : List Nat :=
  let b1 := if b.length < 3 then b ++ [0] else b
  let b2 := if b1.length < 3 then b1 ++ [0] else b1
  if b2.length < 3 then b2 ++ [0] else b2

/-- The `expire_multiple_pots` submission for a padded batch:
arguments `batch[0], batch[1], batch[2]`. -/
def submitBatch (bt : Nat → Nat → Nat → Option String) (b : List Nat) :
    Option String :=
  bt (b.getD 0 0) (b.getD 1 0) (b.getD 2 0)

/-- The body of the batch loop in `expire_pots_batch`, restricted to
what it appends to `successful_txs` for one group `g`: on a committed
batch, every non-zero id of the padded batch paired with the batch tx
hash; on a failed batch, one individual `expire_pot` per non-zero id,
keeping the per-id successes. -/
def groupSucceeded (bt : Nat → Nat → Nat → Option String)
    (st : Nat → Option String) (g : List Nat) : List (Nat × String) :=
  match submitBatch bt (padTo3 g) with
  | some h =>
    (padTo3 g).filterMap (fun p => if p ≠ 0 then some (p, h) else none)
  | none =>
    (padTo3 g).filterMap
      (fun p => if p ≠ 0 then (st p).map (fun h => (p, h)) else none)

/-- The submissions the same loop body attempts for one group: always
the `expire_multiple_pots` call; after a failed batch, additionally
one `expire_pot` per non-zero id of the padded batch. -/
def groupSubs (bt : Nat → Nat → Nat → Option String)
    (_st : Nat → Option String) (g : List Nat) : List Submission :=
  let b := padTo3 g
  match submitBatch bt b with
  | some _ => [Submission.batch (b.getD 0 0) (b.getD 1 0) (b.getD 2 0)]
  | none =>
    Submission.batch (b.getD 0 0) (b.getD 1 0) (b.getD 2 0) ::
      b.filterMap (fun p => if p ≠ 0 then some (Submission.single p) else none)

/-- Embedding of `expire_pots_batch` from `src/scripts/expire_pots.py`: process the
id list in groups of 3 (`range(0, len(pot_ids), 3)`), accumulating
`successful_txs` across groups. -/
def expire_pots_batch (bt : Nat → Nat → Nat → Option String)
    (st : Nat → Option String) (pot_ids : List Nat) : List (Nat × String) :=
  (chunksOf 3 pot_ids).foldl (fun acc g => acc ++ groupSucceeded bt st g) []

/-- The full submission trace of `expire_pots_batch`, in order. -/
def batchSubmissions (bt : Nat → Nat → Nat → Option String)
    (st : Nat → Option String) (pot_ids : List Nat) : List Submission :=
  (chunksOf 3 pot_ids).foldl (fun acc g => acc ++ groupSubs bt st g) []

/-- Embedding of `main` from `src/scripts/expire_pots.py`, instrumented with the
list of mutating submissions it attempts.  `(none, [])` models the
run aborting with an exception during the read phase (in which case
nothing has been submitted); the early returns on an empty active set
or an empty expired set produce an empty report and no submissions. -/
def sweep (now : Nat) (env : SweepEnv) : Option SweepReport × List Submission :=
  if env.active_pots.isEmpty then (some ⟨[], []⟩, [])
  else
    match scanExpired now env.get_pot env.active_pots with
    | none => (none, [])
    | some expired =>
      if expired.isEmpty then (some ⟨[], []⟩, [])
      else
        (some ⟨expired, expire_pots_batch env.batch_tx env.single_tx expired⟩,
         batchSubmissions env.batch_tx env.single_tx expired)

/-! ### Concrete test fixtures (used by witness theorems) -/

/-- Detail oracle with pot 1 expired at 50 and pot 2 expiring at 200. -/
def gpC1 : Nat → Option PotDetails := fun id =>
  if id = 1 then some ⟨some 50, some true⟩ else some ⟨some 200, some true⟩

/-- Environment with two active pots, all queries and submissions healthy. -/
def envC2 : SweepEnv :=
  ⟨[1, 2], gpC1, fun _ _ _ => some "bh", fun _ => some "sh"⟩

/-- Expiry timetable matching `gpC1`. -/
def expiryC2 : Nat → Nat := fun id => if id = 1 then 50 else 200

/-- Batch submission oracle that always commits. -/
def btOkC3 : Nat → Nat → Nat → Option String := fun _ _ _ => some "h"

/-- Individual submission oracle that always fails. -/
def stNoneC3 : Nat → Option String := fun _ => none

/-- Batch submission oracle that always fails. -/
def btFailC4 : Nat → Nat → Nat → Option String := fun _ _ _ => none

/-- Individual submission oracle that always commits. -/
def stOkC4 : Nat → Option String := fun _ => some "s"

/-- Environment whose `get_pot` query raises for pot 2. -/
def envC5 : SweepEnv :=
  ⟨[1, 2], fun id => if id = 1 then some ⟨some 50, some true⟩ else none,
   fun _ _ _ => some "bh", fun _ => some "sh"⟩

/-- Environment with no active pots. -/
def envC10 : SweepEnv := ⟨[], fun _ => none, fun _ _ _ => none, fun _ => none⟩

/-! ### Chunking lemmas -/

theorem chunksGo_nil (k fuel : Nat) : chunksGo (α := α) k fuel [] = [] := by
  cases fuel <;> rfl

theorem chunksGo_fuel (k : Nat) :
    ∀ (f1 f2 : Nat) (l : List α), l.length ≤ f1 → l.length ≤ f2 →
      chunksGo k f1 l = chunksGo k f2 l := by
  intro f1
  induction f1 with
  | zero =>
    intro f2 l h1 _
    have hl : l = [] := List.eq_nil_of_length_eq_zero (Nat.le_zero.mp h1)
    subst hl
    rw [chunksGo_nil, chunksGo_nil]
  | succ f ih =>
    intro f2 l h1 h2
    match l with
    | [] => rw [chunksGo_nil, chunksGo_nil]
    | x :: xs =>
      match f2 with
      | 0 => simp at h2
      | f2' + 1 =>
        show (x :: xs.take (k - 1)) :: chunksGo k f (xs.drop (k - 1)) =
          (x :: xs.take (k - 1)) :: chunksGo k f2' (xs.drop (k - 1))
        have hd : (xs.drop (k - 1)).length ≤ xs.length := by
          simp [List.length_drop]
        simp only [List.length_cons, Nat.add_le_add_iff_right] at h1 h2
        rw [ih f2' (xs.drop (k - 1)) (le_trans hd h1) (le_trans hd h2)]

theorem chunksOf_nil (k : Nat) : chunksOf (α := α) k [] = [] := rfl

theorem chunksOf_cons (k : Nat) (x : α) (xs : List α) :
    chunksOf k (x :: xs) =
      (x :: xs.take (k - 1)) :: chunksOf k (xs.drop (k - 1)) := by
  show (x :: xs.take (k - 1)) :: chunksGo k xs.length (xs.drop (k - 1)) =
    (x :: xs.take (k - 1)) :: chunksGo k (xs.drop (k - 1)).length (xs.drop (k - 1))
  rw [chunksGo_fuel k xs.length (xs.drop (k - 1)).length (xs.drop (k - 1))
    (by simp [List.length_drop]) le_rfl]

theorem chunksOf_eq_nil_iff (k : Nat) (l : List α) :
    chunksOf k l = [] ↔ l = [] := by
  cases l with
  | nil => simp [chunksOf_nil]
  | cons x xs => simp [chunksOf_cons]

theorem chunksOf_flatten (n : Nat) (l : List α) :
    (chunksOf (n + 1) l).flatten = l := by
  suffices h : ∀ (m : Nat) (l : List α), l.length ≤ m →
      (chunksOf (n + 1) l).flatten = l from h l.length l le_rfl
  intro m
  induction m with
  | zero =>
    intro l hl
    have : l = [] := List.eq_nil_of_length_eq_zero (Nat.le_zero.mp hl)
    subst this
    simp [chunksOf_nil]
  | succ m ih =>
    intro l hl
    match l with
    | [] => simp [chunksOf_nil]
    | x :: xs =>
      have hdl : (xs.drop n).length ≤ m := by
        simp only [List.length_cons] at hl
        simp only [List.length_drop]
        omega
      rw [chunksOf_cons]
      simp only [Nat.add_sub_cancel, List.flatten_cons]
      rw [ih (xs.drop n) hdl, List.cons_append, List.take_append_drop]

theorem chunksOf_length (n : Nat) (l : List α) :
    (chunksOf (n + 1) l).length = (l.length + n) / (n + 1) := by
  suffices h : ∀ (m : Nat) (l : List α), l.length ≤ m →
      (chunksOf (n + 1) l).length = (l.length + n) / (n + 1) from h l.length l le_rfl
  intro m
  induction m with
  | zero =>
    intro l hl
    have : l = [] := List.eq_nil_of_length_eq_zero (Nat.le_zero.mp hl)
    subst this
    simp [chunksOf_nil, Nat.div_eq_of_lt (Nat.lt_succ_self n)]
  | succ m ih =>
    intro l hl
    match l with
    | [] => simp [chunksOf_nil, Nat.div_eq_of_lt (Nat.lt_succ_self n)]
    | x :: xs =>
      have hdl : (xs.drop n).length ≤ m := by
        simp only [List.length_cons] at hl
        simp only [List.length_drop]
        omega
      rw [chunksOf_cons]
      simp only [Nat.add_sub_cancel, List.length_cons]
      rw [ih (xs.drop n) hdl]
      have hr : xs.length + 1 + n = xs.length + (n + 1) := by omega
      rw [hr, Nat.add_div_right _ (Nat.succ_pos n)]
      rcases Nat.le_total n xs.length with hc | hc
      · have : xs.length - n + n = xs.length := by omega
        simp [List.length_drop, this]
      · have h0 : xs.length - n = 0 := by omega
        simp only [List.length_drop, h0, Nat.zero_add]
        rw [Nat.div_eq_of_lt (Nat.lt_succ_self n),
          Nat.div_eq_of_lt (by omega : xs.length < n + 1)]

theorem chunksOf_mem_length_le (n : Nat) (l : List α) :
    ∀ g ∈ chunksOf (n + 1) l, g.length ≤ n + 1 := by
  suffices h : ∀ (m : Nat) (l : List α), l.length ≤ m →
      ∀ g ∈ chunksOf (n + 1) l, g.length ≤ n + 1 from h l.length l le_rfl
  intro m
  induction m with
  | zero =>
    intro l hl
    have : l = [] := List.eq_nil_of_length_eq_zero (Nat.le_zero.mp hl)
    subst this
    simp [chunksOf_nil]
  | succ m ih =>
    intro l hl g hg
    match l with
    | [] => simp [chunksOf_nil] at hg
    | x :: xs =>
      rw [chunksOf_cons] at hg
      simp only [Nat.add_sub_cancel, List.mem_cons] at hg
      rcases hg with hg | hg
      · subst hg
        simp only [List.length_cons, List.length_take]
        omega
      · have hdl : (xs.drop n).length ≤ m := by
          simp only [List.length_cons] at hl
          simp only [List.length_drop]
          omega
        exact ih (xs.drop n) hdl g hg

theorem chunksOf_dropLast_length (n : Nat) (l : List α) :
    ∀ g ∈ (chunksOf (n + 1) l).dropLast, g.length = n + 1 := by
  suffices h : ∀ (m : Nat) (l : List α), l.length ≤ m →
      ∀ g ∈ (chunksOf (n + 1) l).dropLast, g.length = n + 1 from h l.length l le_rfl
  intro m
  induction m with
  | zero =>
    intro l hl
    have : l = [] := List.eq_nil_of_length_eq_zero (Nat.le_zero.mp hl)
    subst this
    simp [chunksOf_nil]
  | succ m ih =>
    intro l hl g hg
    match l with
    | [] => simp [chunksOf_nil] at hg
    | x :: xs =>
      rw [chunksOf_cons] at hg
      simp only [Nat.add_sub_cancel] at hg
      cases hrest : chunksOf (n + 1) (xs.drop n) with
      | nil => rw [hrest] at hg; simp at hg
      | cons c cs =>
        rw [hrest, List.dropLast_cons₂, List.mem_cons] at hg
        rcases hg with hg | hg
        · subst hg
          have hne : xs.drop n ≠ [] := by
            intro hnil
            rw [hnil, chunksOf_nil] at hrest
            exact List.noConfusion hrest
          have hlen : n < xs.length := by
            by_contra hcon
            exact hne (List.drop_eq_nil_of_le (by omega))
          simp only [List.length_cons, List.length_take]
          omega
        · have hdl : (xs.drop n).length ≤ m := by
            simp only [List.length_cons] at hl
            simp only [List.length_drop]
            omega
          have := ih (xs.drop n) hdl g
          rw [hrest] at this
          exact this hg

/-! ### Padding and group-level lemmas -/

theorem padTo3_eq (l : List Nat) :
    padTo3 l = l ++ List.replicate (3 - l.length) 0 := by
  match l with
  | [] => rfl
  | [a] => rfl
  | [a, b] => rfl
  | a :: b :: c :: l' =>
    have h : ¬ (a :: b :: c :: l').length < 3 := by simp
    simp only [padTo3, if_neg h]
    have h0 : 3 - (a :: b :: c :: l').length = 0 := by simp
    rw [h0]
    simp

theorem padTo3_length_of_le (l : List Nat) (h : l.length ≤ 3) :
    (padTo3 l).length = 3 := by
  rw [padTo3_eq]
  simp only [List.length_append, List.length_replicate]
  omega

theorem mem_padTo3 (l : List Nat) (p : Nat) (h : p ∈ padTo3 l) :
    p ∈ l ∨ p = 0 := by
  rw [padTo3_eq] at h
  rcases List.mem_append.mp h with h | h
  · exact Or.inl h
  · exact Or.inr (List.eq_of_mem_replicate h)

theorem foldl_append_eq_flatten {β γ : Type} (f : γ → List β) (cs : List γ)
    (a : List β) :
    cs.foldl (fun acc g => acc ++ f g) a = a ++ (cs.map f).flatten := by
  induction cs generalizing a with
  | nil => simp
  | cons c cs ih => simp [ih, List.append_assoc]

theorem flatten_map_singleton {β γ : Type} (f : γ → β) (l : List γ) :
    (l.map (fun x => [f x])).flatten = l.map f := by
  induction l with
  | nil => rfl
  | cons x xs ih => simp [ih]

theorem expire_pots_batch_eq_flatten (bt : Nat → Nat → Nat → Option String)
    (st : Nat → Option String) (ids : List Nat) :
    expire_pots_batch bt st ids =
      ((chunksOf 3 ids).map (groupSucceeded bt st)).flatten := by
  rw [expire_pots_batch, foldl_append_eq_flatten]
  rfl

theorem batchSubmissions_eq_flatten (bt : Nat → Nat → Nat → Option String)
    (st : Nat → Option String) (ids : List Nat) :
    batchSubmissions bt st ids =
      ((chunksOf 3 ids).map (groupSubs bt st)).flatten := by
  rw [batchSubmissions, foldl_append_eq_flatten]
  rfl

theorem mem_groupSucceeded (bt : Nat → Nat → Nat → Option String)
    (st : Nat → Option String) (g : List Nat) (pr : Nat × String)
    (h : pr ∈ groupSucceeded bt st g) : pr.1 ∈ padTo3 g ∧ pr.1 ≠ 0 := by
  rw [groupSucceeded] at h
  cases hsb : submitBatch bt (padTo3 g) with
  | some hash =>
    rw [hsb] at h
    obtain ⟨a, ha, hfa⟩ := List.mem_filterMap.mp h
    by_cases ha0 : a = 0
    · simp [ha0] at hfa
    · simp only [if_pos ha0, Option.some.injEq] at hfa
      subst hfa
      exact ⟨ha, ha0⟩
  | none =>
    rw [hsb] at h
    obtain ⟨a, ha, hfa⟩ := List.mem_filterMap.mp h
    by_cases ha0 : a = 0
    · simp [ha0] at hfa
    · simp only [if_pos ha0] at hfa
      obtain ⟨hh, _, hpr⟩ := Option.map_eq_some'.mp hfa
      subst hpr
      exact ⟨ha, ha0⟩

theorem mem_expire_pots_batch (bt : Nat → Nat → Nat → Option String)
    (st : Nat → Option String) (ids : List Nat) (pr : Nat × String)
    (h : pr ∈ expire_pots_batch bt st ids) : pr.1 ∈ ids ∧ pr.1 ≠ 0 := by
  rw [expire_pots_batch_eq_flatten] at h
  obtain ⟨gl, hgl, hpr⟩ := List.mem_flatten.mp h
  obtain ⟨g, hg, hfg⟩ := List.mem_map.mp hgl
  subst hfg
  obtain ⟨hmem, hne⟩ := mem_groupSucceeded bt st g pr hpr
  rcases mem_padTo3 g pr.1 hmem with hin | h0
  · refine ⟨?_, hne⟩
    have : pr.1 ∈ (chunksOf 3 ids).flatten :=
      List.mem_flatten.mpr ⟨g, hg, hin⟩
    rwa [chunksOf_flatten 2 ids] at this
  · exact absurd h0 hne

/-! ### Detail-scan lemmas -/

theorem gatherDetails_none (gp : Nat → Option PotDetails) (b : List Nat)
    (x : Nat) (hx : x ∈ b) (hgx : gp x = none) :
    gatherDetails gp b = none := by
  induction b with
  | nil => simp at hx
  | cons y ys ih =>
    rcases List.mem_cons.mp hx with hxy | hxs
    · subst hxy
      rw [gatherDetails, hgx]
    · rw [gatherDetails, ih hxs]
      cases gp y <;> rfl

theorem scanChunk_ok (now : Nat) (gp : Nat → Option PotDetails) (b : List Nat)
    (h : ∀ x ∈ b, (gp x).isSome = true) :
    scanChunk now gp b = some (b.filter (classify now gp)) := by
  induction b with
  | nil => rfl
  | cons p ps ih =>
    have hp : (gp p).isSome = true := h p (List.mem_cons_self p ps)
    obtain ⟨d, hd⟩ := Option.isSome_iff_exists.mp hp
    have ihs := ih (fun x hx => h x (List.mem_cons_of_mem p hx))
    rw [scanChunk] at ihs
    cases hgd : gatherDetails gp ps with
    | none => rw [hgd] at ihs; exact absurd ihs (by simp)
    | some ds =>
      rw [hgd] at ihs
      simp only [Option.some.injEq] at ihs
      rw [scanChunk]
      have hcons : gatherDetails gp (p :: ps) = some (d :: ds) := by
        rw [gatherDetails, hd, hgd]
      rw [hcons]
      simp only [List.zip_cons_cons, List.filter_cons, List.map_cons]
      have hcl : classify now gp p = isExpired now d := by
        rw [classify, hd]
      by_cases he : isExpired now d
      · simp [hcl, he, ihs]
      · simp [hcl, he, ihs]

theorem scanChunk_none (now : Nat) (gp : Nat → Option PotDetails) (b : List Nat)
    (x : Nat) (hx : x ∈ b) (hgx : gp x = none) :
    scanChunk now gp b = none := by
  rw [scanChunk, gatherDetails_none gp b x hx hgx]

theorem scanChunks_ok (now : Nat) (gp : Nat → Option PotDetails)
    (cs : List (List Nat)) (h : ∀ x ∈ cs.flatten, (gp x).isSome = true) :
    scanChunks now gp cs = some (cs.flatten.filter (classify now gp)) := by
  induction cs with
  | nil => rfl
  | cons c cs ih =>
    have hc : ∀ x ∈ c, (gp x).isSome = true := by
      intro x hx
      exact h x (by simp [List.flatten_cons]; exact Or.inl hx)
    have hcs : ∀ x ∈ cs.flatten, (gp x).isSome = true := by
      intro x hx
      exact h x (by simp [List.flatten_cons]; exact Or.inr (List.mem_flatten.mp hx))
    rw [scanChunks, scanChunk_ok now gp c hc, ih hcs]
    simp [List.filter_append]

theorem scanChunks_none (now : Nat) (gp : Nat → Option PotDetails)
    (cs : List (List Nat)) (x : Nat) (hx : x ∈ cs.flatten) (hgx : gp x = none) :
    scanChunks now gp cs = none := by
  induction cs with
  | nil => simp at hx
  | cons c cs ih =>
    rw [List.flatten_cons, List.mem_append] at hx
    rcases hx with hx | hx
    · rw [scanChunks, scanChunk_none now gp c x hx hgx]
    · rw [scanChunks, ih hx]
      cases scanChunk now gp c <;> rfl

theorem scanExpired_ok (now : Nat) (gp : Nat → Option PotDetails)
    (ids : List Nat) (h : ∀ x ∈ ids, (gp x).isSome = true) :
    scanExpired now gp ids = some (ids.filter (classify now gp)) := by
  rw [scanExpired, scanChunks_ok now gp (chunksOf 50 ids)
    (by rw [chunksOf_flatten 49 ids]; exact h)]
  rw [chunksOf_flatten 49 ids]

theorem scanExpired_none (now : Nat) (gp : Nat → Option PotDetails)
    (ids : List Nat) (x : Nat) (hx : x ∈ ids) (hgx : gp x = none) :
    scanExpired now gp ids = none := by
  rw [scanExpired]
  exact scanChunks_none now gp (chunksOf 50 ids) x
    (by rw [chunksOf_flatten 49 ids]; exact hx) hgx

/-! ### Claim theorems -/

/-- C1: in the sweep's detail scan, a pot id is classified as expired
(added to `expired_pot_ids`) iff it was among the scanned ids, its
`get_pot` query returned details, and those details satisfy
`isActive == true AND expiresAt > 0 AND now >= expiresAt`, where `now`
is the single timestamp taken before the scan; an id whose details fail
any of the three conjuncts is not added. -/
theorem C1_scan_classification (now : Nat) (gp : Nat → Option PotDetails)
    (ids expired : List Nat) (h : scanExpired now gp ids = some expired)
    (id : Nat) :
    id ∈ expired ↔ id ∈ ids ∧ ∃ d, gp id = some d ∧
      (d.is_active.getD false = true ∧ 0 < d.expires_at.getD 0 ∧
        d.expires_at.getD 0 ≤ now) := by
  have hsome : ∀ x ∈ ids, (gp x).isSome = true := by
    intro x hx
    cases hgx : gp x with
    | none =>
      rw [scanExpired_none now gp ids x hx hgx] at h
      exact absurd h (by simp)
    | some d => rfl
  rw [scanExpired_ok now gp ids hsome] at h
  have he : expired = ids.filter (classify now gp) := by
    injection h with h'
    exact h'.symm
  subst he
  rw [List.mem_filter]
  constructor
  · rintro ⟨hin, hcl⟩
    refine ⟨hin, ?_⟩
    rw [classify] at hcl
    cases hgx : gp id with
    | none => rw [hgx] at hcl; exact absurd hcl (by simp)
    | some d =>
      rw [hgx] at hcl
      refine ⟨d, rfl, ?_⟩
      simp only [isExpired, Bool.and_eq_true, decide_eq_true_eq] at hcl
      exact ⟨hcl.1.1, hcl.1.2, hcl.2⟩
  · rintro ⟨hin, d, hgd, h1, h2, h3⟩
    refine ⟨hin, ?_⟩
    rw [classify, hgd]
    simp [isExpired, h1, h2, h3]

/-- Witness for C1: at time 100 with pots 1 (expired at 50) and 2
(expiring at 200) the scan returns `[1]`, and the iff holds at id 1. -/
theorem C1_scan_classification_witness :
    1 ∈ [1] ↔ 1 ∈ [1, 2] ∧ ∃ d, gpC1 1 = some d ∧
      (d.is_active.getD false = true ∧ 0 < d.expires_at.getD 0 ∧
        d.expires_at.getD 0 ≤ 100) :=
  C1_scan_classification 100 gpC1 [1, 2] [1] (by decide) 1

/-- C2: for a population of active pots with known (positive) expiry
timestamps, the sweep's report lists exactly the ids with
`expiresAt <= now` as the attempted set, and every id in `succeeded` is
also in `attempted`. -/
theorem C2_sweep_correctness (now : Nat) (env : SweepEnv) (expiry : Nat → Nat)
    (h1 : ∀ id ∈ env.active_pots,
      env.get_pot id = some ⟨some (expiry id), some true⟩)
    (h2 : ∀ id ∈ env.active_pots, 0 < expiry id) :
    ∃ r, (sweep now env).1 = some r ∧
      r.attempted = env.active_pots.filter (fun id => expiry id ≤ now) ∧
      ∀ pr ∈ r.succeeded, pr.1 ∈ r.attempted := by
  have hsome : ∀ id ∈ env.active_pots, (env.get_pot id).isSome = true := by
    intro id hid
    rw [h1 id hid]
    rfl
  have hscan := scanExpired_ok now env.get_pot env.active_pots hsome
  have hfilt : env.active_pots.filter (classify now env.get_pot) =
      env.active_pots.filter (fun id => expiry id ≤ now) := by
    apply List.filter_congr
    intro id hid
    rw [classify, h1 id hid]
    simp [isExpired, h2 id hid]
  rw [hfilt] at hscan
  by_cases hae : env.active_pots.isEmpty
  · refine ⟨⟨[], []⟩, ?_, ?_, ?_⟩
    · rw [sweep, if_pos hae]
    · simp [List.isEmpty_iff.mp hae]
    · intro pr hpr
      simp at hpr
  · by_cases hfe : (env.active_pots.filter (fun id => expiry id ≤ now)).isEmpty
    · refine ⟨⟨[], []⟩, ?_, ?_, ?_⟩
      · rw [sweep, if_neg hae, hscan]
        simp [hfe]
      · simp [List.isEmpty_iff.mp hfe]
      · intro pr hpr
        simp at hpr
    · have hsw : (sweep now env).1 = some
          ⟨env.active_pots.filter (fun id => expiry id ≤ now),
           expire_pots_batch env.batch_tx env.single_tx
             (env.active_pots.filter (fun id => expiry id ≤ now))⟩ := by
        rw [sweep, if_neg hae, hscan]
        simp [hfe]
      refine ⟨_, hsw, rfl, ?_⟩
      intro pr hpr
      exact (mem_expire_pots_batch _ _ _ pr hpr).1

/-- Witness for C2: the healthy two-pot environment at time 100. -/
theorem C2_sweep_correctness_witness :
    ∃ r, (sweep 100 envC2).1 = some r ∧
      r.attempted = [1, 2].filter (fun id => expiryC2 id ≤ 100) ∧
      ∀ pr ∈ r.succeeded, pr.1 ∈ r.attempted :=
  C2_sweep_correctness 100 envC2 expiryC2 (by decide) (by decide)

/-- C3: the batched mutation partitions the expired-id list in order
into consecutive groups (their concatenation is the original list), pads
each group with the sentinel 0 to length exactly 3 (only the final group
can be short before padding), submits exactly one `expire_multiple_pots`
transaction per group in the no-failure case, making `(n + 2) / 3 = ⌈n/3⌉`
submissions for `n` ids — in particular 16 for 47 ids. -/
theorem C3_batch_partition (bt : Nat → Nat → Nat → Option String)
    (st : Nat → Option String) (ids : List Nat)
    (hbt : ∀ a b c, (bt a b c).isSome = true) :
    (chunksOf 3 ids).flatten = ids ∧
    (∀ g ∈ chunksOf 3 ids,
      padTo3 g = g ++ List.replicate (3 - g.length) 0 ∧ (padTo3 g).length = 3) ∧
    (∀ g ∈ (chunksOf 3 ids).dropLast, g.length = 3) ∧
    batchSubmissions bt st ids = (chunksOf 3 ids).map (fun g =>
      Submission.batch ((padTo3 g).getD 0 0) ((padTo3 g).getD 1 0)
        ((padTo3 g).getD 2 0)) ∧
    (batchSubmissions bt st ids).length = (ids.length + 2) / 3 ∧
    (ids.length = 47 → (batchSubmissions bt st ids).length = 16) := by
  have hsubs : batchSubmissions bt st ids = (chunksOf 3 ids).map (fun g =>
      Submission.batch ((padTo3 g).getD 0 0) ((padTo3 g).getD 1 0)
        ((padTo3 g).getD 2 0)) := by
    rw [batchSubmissions_eq_flatten]
    have hmap : (chunksOf 3 ids).map (groupSubs bt st) =
        (chunksOf 3 ids).map (fun g => [Submission.batch ((padTo3 g).getD 0 0)
          ((padTo3 g).getD 1 0) ((padTo3 g).getD 2 0)]) := by
      apply List.map_congr_left
      intro g _
      have hs : (submitBatch bt (padTo3 g)).isSome = true := hbt _ _ _
      obtain ⟨h, hh⟩ := Option.isSome_iff_exists.mp hs
      simp only [groupSubs]
      rw [hh]
    rw [hmap, flatten_map_singleton]
  have hcount : (batchSubmissions bt st ids).length = (ids.length + 2) / 3 := by
    rw [hsubs, List.length_map, chunksOf_length 2 ids]
  refine ⟨chunksOf_flatten 2 ids, ?_, chunksOf_dropLast_length 2 ids, hsubs,
    hcount, ?_⟩
  · intro g hg
    refine ⟨padTo3_eq g, padTo3_length_of_le g ?_⟩
    exact chunksOf_mem_length_le 2 ids g hg
  · intro h47
    rw [hcount, h47]

/-- Witness for C3: with an always-committing batch oracle, 47 expired
ids give exactly 16 batch submissions. -/
theorem C3_batch_partition_witness :
    (batchSubmissions btOkC3 stNoneC3 (List.range 47)).length = 16 :=
  (C3_batch_partition btOkC3 stNoneC3 (List.range 47)
    (fun _ _ _ => rfl)).2.2.2.2.2 (by simp)

/-- C4: if the `expire_multiple_pots` submission for the `j`-th group
fails, the sweep's mutation phase contributes, for exactly that group,
one individual `expire_pot` submission per non-sentinel (non-zero)
member of the padded group, records each member's individual outcome
independently (an entry appears iff that member's own submission
commits), and the groups before and after `j` are processed exactly as
usual. -/
theorem C4_batch_fallback (bt : Nat → Nat → Nat → Option String)
    (st : Nat → Option String) (ids : List Nat) (j : Nat)
    (hj : j < (chunksOf 3 ids).length)
    (hfail : submitBatch bt (padTo3 ((chunksOf 3 ids).get ⟨j, hj⟩)) = none) :
    expire_pots_batch bt st ids =
      (((chunksOf 3 ids).take j).map (groupSucceeded bt st)).flatten ++
        (padTo3 ((chunksOf 3 ids).get ⟨j, hj⟩)).filterMap
          (fun p => if p ≠ 0 then (st p).map (fun h => (p, h)) else none) ++
        (((chunksOf 3 ids).drop (j + 1)).map (groupSucceeded bt st)).flatten ∧
    batchSubmissions bt st ids =
      (((chunksOf 3 ids).take j).map (groupSubs bt st)).flatten ++
        (Submission.batch ((padTo3 ((chunksOf 3 ids).get ⟨j, hj⟩)).getD 0 0)
            ((padTo3 ((chunksOf 3 ids).get ⟨j, hj⟩)).getD 1 0)
            ((padTo3 ((chunksOf 3 ids).get ⟨j, hj⟩)).getD 2 0) ::
          (padTo3 ((chunksOf 3 ids).get ⟨j, hj⟩)).filterMap
            (fun p => if p ≠ 0 then some (Submission.single p) else none)) ++
        (((chunksOf 3 ids).drop (j + 1)).map (groupSubs bt st)).flatten := by
  have hdecomp : chunksOf 3 ids = (chunksOf 3 ids).take j ++
      (chunksOf 3 ids).get ⟨j, hj⟩ :: (chunksOf 3 ids).drop (j + 1) := by
    conv_lhs => rw [← List.take_append_drop j (chunksOf 3 ids)]
    rw [List.drop_eq_getElem_cons hj, List.get_eq_getElem]
  constructor
  · rw [expire_pots_batch_eq_flatten]
    conv_lhs => rw [hdecomp]
    rw [List.map_append, List.flatten_append, List.map_cons, List.flatten_cons]
    simp only [groupSucceeded, hfail, List.append_assoc]
  · rw [batchSubmissions_eq_flatten]
    conv_lhs => rw [hdecomp]
    rw [List.map_append, List.flatten_append, List.map_cons, List.flatten_cons]
    simp only [groupSubs, hfail, List.append_assoc]

/-- Witness for C4: with the batch oracle failing and every individual
submission committing, the four expired ids 1..4 are all retired
individually and each is reported. -/
theorem C4_batch_fallback_witness :
    expire_pots_batch btFailC4 stOkC4 [1, 2, 3, 4] =
      [(1, "s"), (2, "s"), (3, "s"), (4, "s")] :=
  ((C4_batch_fallback btFailC4 stOkC4 [1, 2, 3, 4] 0 (by decide)
    (by decide)).1).trans (by decide)

/-- C5: if any `get_pot` detail query of the read phase fails, the
sweep aborts with no expiration submission at all; if the read phase
succeeds, the sweep always returns a report — for arbitrary batch and
individual mutation outcomes — whose attempted set covers the whole
expired population and whose succeeded set is the mutation phase run on
that full set (mutation failures never stop the sweep). -/
theorem C5_failure_policy (now : Nat) (env : SweepEnv) :
    ((∃ id ∈ env.active_pots, env.get_pot id = none) →
      sweep now env = (none, [])) ∧
    ((∀ id ∈ env.active_pots, (env.get_pot id).isSome = true) →
      ∃ r subs, sweep now env = (some r, subs) ∧
        r.attempted = env.active_pots.filter (classify now env.get_pot) ∧
        r.succeeded =
          expire_pots_batch env.batch_tx env.single_tx r.attempted) := by
  constructor
  · rintro ⟨id, hid, hnone⟩
    have hne : ¬ env.active_pots.isEmpty = true := by
      intro hemp
      rw [List.isEmpty_iff.mp hemp] at hid
      simp at hid
    rw [sweep, if_neg hne,
      scanExpired_none now env.get_pot env.active_pots id hid hnone]
  · intro hsome
    have hscan := scanExpired_ok now env.get_pot env.active_pots hsome
    by_cases hae : env.active_pots.isEmpty
    · refine ⟨⟨[], []⟩, [], ?_, ?_, rfl⟩
      · rw [sweep, if_pos hae]
      · simp [List.isEmpty_iff.mp hae]
    · by_cases hfe : (env.active_pots.filter (classify now env.get_pot)).isEmpty
      · refine ⟨⟨[], []⟩, [], ?_, ?_, rfl⟩
        · rw [sweep, if_neg hae, hscan]
          simp [hfe]
        · simp [List.isEmpty_iff.mp hfe]
      · refine ⟨⟨env.active_pots.filter (classify now env.get_pot),
          expire_pots_batch env.batch_tx env.single_tx
            (env.active_pots.filter (classify now env.get_pot))⟩,
          batchSubmissions env.batch_tx env.single_tx
            (env.active_pots.filter (classify now env.get_pot)),
          ?_, rfl, rfl⟩
        rw [sweep, if_neg hae, hscan]
        simp [hfe]

/-- Witness for C5: in the environment whose `get_pot` raises for pot 2,
the sweep aborts with no submissions. -/
theorem C5_failure_policy_witness : sweep 100 envC5 = (none, []) :=
  (C5_failure_policy 100 envC5).1 ⟨2, by decide, rfl⟩

/-- C6 (refuting the stated property): a `PotEvent` whose hex tag
decodes to the wanted kind but whose payload lacks the `id` field makes
the correlators return identifier 0 (`int(data.get("id", 0))`), not
"nothing": the code does default an identifier to 0.  The hex strings
are `"created"` and `"attempted"` with the `0x` prefix. -/
theorem C6_extract_defaults_missing_id_to_zero :
    extract_pot_id_from_events
        [AptosEvent.mk potEventType (some "0x63726561746564") none] = some 0 ∧
    extract_attempt_id_from_events
        [AptosEvent.mk potEventType (some "0x617474656d70746564") none] =
      some 0 := by
  exact ⟨by decide, by decide⟩

/-- C7: the correlator scans the events in order and returns the
payload identifier of the first event whose type is the known
contract's `PotEvent` and whose decoded event-kind tag is `"created"`
(equivalently, it is `find?` over the declarative match predicate); a
hex-decode error on one event is never a match and does not abort the
scan of later events, and with no matching event the result is
`none`. -/
theorem C7_extract_first_match (events : List AptosEvent) :
    extract_pot_id_from_events events =
      (events.find? (matchesKind "created")).map (fun e => e.id.getD 0) := by
  induction events with
  | nil => rfl
  | cons e rest ih =>
    simp only [extract_pot_id_from_events]
    by_cases hT : e.type = potEventType
    · simp only [if_pos hT]
      by_cases hhx : e.event_type.getD "" = ""
      · rw [if_pos hhx, ih, List.find?_cons_of_neg]
        simp [matchesKind, hhx]
      · rw [if_neg hhx]
        cases hdec : decodeEventType (e.event_type.getD "") with
        | none =>
          rw [ih, List.find?_cons_of_neg]
          simp [matchesKind, hdec]
        | some et =>
          show (if et = "created" then some (e.id.getD 0)
            else extract_pot_id_from_events rest) = _
          by_cases het : et = "created"
          · have hm : matchesKind "created" e = true := by
              simp [matchesKind, hT, hhx, hdec, het]
            rw [if_pos het, List.find?_cons_of_pos _ hm]
            simp
          · rw [if_neg het, ih, List.find?_cons_of_neg]
            simp [matchesKind, hT, hhx, hdec, het]
    · simp only [if_neg hT]
      rw [ih, List.find?_cons_of_neg]
      simp [matchesKind, hT]

/-- C9: identifier 0 in the expired-id list is indistinguishable
from sentinel padding: no entry of `successful_txs` ever carries pot id
0 (even when its batch commits), and no individual `expire_pot`
submission for pot id 0 is ever attempted in the fallback path. -/
theorem C9_sentinel_zero_excluded (bt : Nat → Nat → Nat → Option String)
    (st : Nat → Option String) (ids : List Nat) :
    (expire_pots_batch bt st ids).all (fun pr => pr.1 != 0) = true ∧
    (batchSubmissions bt st ids).all
        (fun s => match s with
          | Submission.single p => p != 0
          | Submission.batch _ _ _ => true) = true := by
  constructor
  · rw [List.all_eq_true]
    intro pr hpr
    simpa using (mem_expire_pots_batch bt st ids pr hpr).2
  · rw [List.all_eq_true]
    intro s hs
    rw [batchSubmissions_eq_flatten] at hs
    obtain ⟨gl, hgl, hsg⟩ := List.mem_flatten.mp hs
    obtain ⟨g, hg, hfg⟩ := List.mem_map.mp hgl
    subst hfg
    simp only [groupSubs] at hsg
    cases hsb : submitBatch bt (padTo3 g) with
    | some hash =>
      rw [hsb] at hsg
      simp only [List.mem_singleton] at hsg
      subst hsg
      rfl
    | none =>
      rw [hsb] at hsg
      rcases List.mem_cons.mp hsg with hsg | hsg
      · subst hsg
        rfl
      · obtain ⟨a, _, hfa⟩ := List.mem_filterMap.mp hsg
        by_cases ha0 : a = 0
        · simp [ha0] at hfa
        · simp only [if_pos ha0, Option.some.injEq] at hfa
          subst hfa
          simpa using ha0

/-- C10: with no active pots, or with an expired set that the scan
found empty, the sweep returns an empty report after the read phase and
attempts no state-changing submission at all. -/
theorem C10_no_mutation_when_nothing_expired (now : Nat) (env : SweepEnv) :
    (env.active_pots = [] → sweep now env = (some ⟨[], []⟩, [])) ∧
    (∀ expired, scanExpired now env.get_pot env.active_pots = some expired →
      expired = [] → sweep now env = (some ⟨[], []⟩, [])) := by
  constructor
  · intro h
    rw [sweep, if_pos (by rw [h]; rfl)]
  · intro expired hscan hemp
    subst hemp
    by_cases hae : env.active_pots.isEmpty
    · rw [sweep, if_pos hae]
    · rw [sweep, if_neg hae, hscan]
      rfl

/-- Witness for C10: the empty-population environment. -/
theorem C10_no_mutation_witness : sweep 7 envC10 = (some ⟨[], []⟩, []) :=
  (C10_no_mutation_when_nothing_expired 7 envC10).1 rfl

end MoneyPot
